import Mathlib

/-!
# Verification of the Amazon-Recommendation-System frontend query pipeline

Shallow embedding of the client-side query pipeline of
`src/frontend/src/App.jsx` (Price-Range Mapper, Response Normalizer,
Filter/Sort/Paginate pipeline, Query Orchestrator, Trust Detail Fetcher,
Bundle Request), together with proofs of the specified properties.

Modelling conventions:
* JSON values are modelled by the inductive `Json`; JavaScript numbers are
  modelled by exact rationals `ℚ` (the computations proved about stay far from
  the rounding boundaries of IEEE doubles, and `Math.round` of an
  integer-valued expression is unaffected by error terms of order `2⁻³⁶`);
  NaN is modelled by `none : Option ℚ` where it can arise.
* `Math.round` rounds half toward `+∞`, i.e. `⌊x + 1/2⌋`.
* JavaScript's `a?.f ?? b` chains skip both absent fields and `null` fields;
  the accessor `Json.get?` therefore yields `none` in both cases.
-/

/-- JSON values returned by the backend. -/
inductive Json where
  | null : Json
  | bool : Bool → Json
  | num : ℚ → Json
  | str : String → Json
  | arr : List Json → Json
  | obj : List (String × Json) → Json

namespace Json

/-- `Array.isArray`. -/
def isArray : Json → Bool
  | .arr _ => true
  | _ => false

/-- Optional-chaining field access `p?.key`, with `null`-valued fields
collapsed to `none` (so that `??`-coalescing, modelled by `<|>`, skips them
exactly as JavaScript's `??` skips both `undefined` and `null`). -/
def get? : Json → String → Option Json
  | .obj fields, key =>
    match fields.find? (fun kv => kv.1 == key) with
    | some (_, .null) => none
    | some (_, v) => some v
    | none => none
  | _, _ => none

end Json

/-! ## Price-Range Mapper (`App.jsx` lines 34–42) -/

/-- `Math.round`: round half toward `+∞` (an executable form of `⌊q + 1/2⌋`,
see `jsRound_eq_floor`). -/
def jsRound (q : ℚ) : ℤ := (q + 1/2).num / ((q + 1/2).den : ℤ)

theorem jsRound_eq_floor (q : ℚ) : jsRound q = ⌊q + 1/2⌋ :=
  Rat.floor_def.symm

theorem jsRound_intCast (n : ℤ) : jsRound (n : ℚ) = n := by
  rw [jsRound_eq_floor, Int.floor_int_add]
  have : ⌊(1/2 : ℚ)⌋ = 0 := by
    rw [Int.floor_eq_zero_iff]
    constructor <;> norm_num
  omega

/-- The `priceRange` effect of `App.jsx` (lines 34–42):

```js
const maxPrice = 100000;
const center = Math.round((1 - priceImportance / 100) * (maxPrice * 0.6) + (maxPrice * 0.2));
const span = Math.round((1 - priceImportance / 100) * (maxPrice * 0.4) + 500);
const min = Math.max(0, Math.round(center - span / 2));
const max = Math.min(maxPrice, Math.round(center + span / 2));
```
-/
def priceRangeOf (priceImportance : ℤ) : ℤ × ℤ :=
  let maxPrice : ℚ := 100000
  let center : ℤ := jsRound ((1 - (priceImportance : ℚ) / 100) * (maxPrice * 0.6) + maxPrice * 0.2)
  let span : ℤ := jsRound ((1 - (priceImportance : ℚ) / 100) * (maxPrice * 0.4) + 500)
  let lo : ℤ := max 0 (jsRound ((center : ℚ) - (span : ℚ) / 2))
  let hi : ℤ := min 100000 (jsRound ((center : ℚ) + (span : ℚ) / 2))
  (lo, hi)

/-- The Price-Range Mapper as the specification words it (§4.2 of the spec):
`maxPrice = 100000`; `center = round((1 − importance/100) × 0.6×maxPrice + 0.2×maxPrice)`;
`span = round((1 − importance/100) × 0.4×maxPrice + 500)`;
`min = max(0, round(center − span/2))`; `max = min(maxPrice, round(center + span/2))`. -/
def specPriceRange (importance : ℤ) : ℤ × ℤ :=
  let center : ℤ := jsRound ((1 - (importance : ℚ) / 100) * (0.6 * 100000) + 0.2 * 100000)
  let span : ℤ := jsRound ((1 - (importance : ℚ) / 100) * (0.4 * 100000) + 500)
  (max 0 (jsRound ((center : ℚ) - (span : ℚ) / 2)),
   min 100000 (jsRound ((center : ℚ) + (span : ℚ) / 2)))

/-- Closed form of the Price-Range Mapper: the formula is integer-valued in
exact arithmetic (`span` is always even), so every `Math.round` is the
identity. -/
theorem priceRangeOf_closed (i : ℤ) :
    priceRangeOf i = (max 0 (59750 - 400 * i), min 100000 (100250 - 800 * i)) := by
  simp only [priceRangeOf]
  have hc : (1 - (i : ℚ) / 100) * ((100000 : ℚ) * 0.6) + (100000 : ℚ) * 0.2
      = ((80000 - 600 * i : ℤ) : ℚ) := by push_cast; ring_nf
  have hs : (1 - (i : ℚ) / 100) * ((100000 : ℚ) * 0.4) + 500
      = ((40500 - 400 * i : ℤ) : ℚ) := by push_cast; ring_nf
  rw [hc, jsRound_intCast, hs, jsRound_intCast]
  have hlo : ((80000 - 600 * i : ℤ) : ℚ) - ((40500 - 400 * i : ℤ) : ℚ) / 2
      = ((59750 - 400 * i : ℤ) : ℚ) := by push_cast; ring
  have hhi : ((80000 - 600 * i : ℤ) : ℚ) + ((40500 - 400 * i : ℤ) : ℚ) / 2
      = ((100250 - 800 * i : ℤ) : ℚ) := by push_cast; ring
  rw [hlo, jsRound_intCast, hhi, jsRound_intCast]

/-- Closed form of the specification-side mapper: identical to
`priceRangeOf_closed`. -/
theorem specPriceRange_closed (i : ℤ) :
    specPriceRange i = (max 0 (59750 - 400 * i), min 100000 (100250 - 800 * i)) := by
  simp only [specPriceRange]
  have hc : (1 - (i : ℚ) / 100) * ((0.6 : ℚ) * 100000) + (0.2 : ℚ) * 100000
      = ((80000 - 600 * i : ℤ) : ℚ) := by push_cast; ring_nf
  have hs : (1 - (i : ℚ) / 100) * ((0.4 : ℚ) * 100000) + 500
      = ((40500 - 400 * i : ℤ) : ℚ) := by push_cast; ring_nf
  rw [hc, jsRound_intCast, hs, jsRound_intCast]
  have hlo : ((80000 - 600 * i : ℤ) : ℚ) - ((40500 - 400 * i : ℤ) : ℚ) / 2
      = ((59750 - 400 * i : ℤ) : ℚ) := by push_cast; ring
  have hhi : ((80000 - 600 * i : ℤ) : ℚ) + ((40500 - 400 * i : ℤ) : ℚ) / 2
      = ((100250 - 800 * i : ℤ) : ℚ) := by push_cast; ring
  rw [hlo, jsRound_intCast, hhi, jsRound_intCast]

/-- C1. For every integer `priceImportance` in `0..100` the Price-Range Mapper
returns exactly the window given by the specification formula, and the window
satisfies `0 ≤ min ≤ max ≤ 100000`. -/
theorem priceRange_matches_spec_and_bounded (i : ℤ) (h0 : 0 ≤ i) (h1 : i ≤ 100) :
    priceRangeOf i = specPriceRange i ∧
    0 ≤ (priceRangeOf i).1 ∧
    (priceRangeOf i).1 ≤ (priceRangeOf i).2 ∧
    (priceRangeOf i).2 ≤ 100000 := by
  rw [priceRangeOf_closed, specPriceRange_closed]
  refine ⟨rfl, ?_, ?_, ?_⟩ <;> simp only [] <;> omega

/-- Witness for C1 at `priceImportance = 30` (the initial slider value). -/
theorem priceRange_matches_spec_and_bounded_witness :
    ((0 : ℤ) ≤ 30 ∧ (30 : ℤ) ≤ 100) ∧
    (priceRangeOf 30 = specPriceRange 30 ∧
     0 ≤ (priceRangeOf 30).1 ∧
     (priceRangeOf 30).1 ≤ (priceRangeOf 30).2 ∧
     (priceRangeOf 30).2 ≤ 100000) :=
  ⟨⟨by decide, by decide⟩, priceRange_matches_spec_and_bounded 30 (by decide) (by decide)⟩

/-! ## JavaScript number coercion

`Number(v)` on strings and primitive values, used by the Response Normalizer.
Values are exact rationals; `none` models NaN.  Approximations (documented,
none load-bearing for the claims): string-to-number overflow to `Infinity`,
hexadecimal/`Infinity` literals, and `valueOf`/`toString` coercion chains of
non-empty objects and arrays (modelled as NaN) are not represented. -/

/-- Numeric value of a list of decimal digit characters. -/
def digitsVal (cs : List Char) : ℕ :=
  cs.foldl (fun a c => a * 10 + (c.toNat - 48)) 0

/-- Parse a decimal mantissa (`Digits`, `Digits . Digits?`, or `. Digits`),
returning its value and the unconsumed remainder. -/
def parseMantissa (cs : List Char) : Option (ℚ × List Char) :=
  let intPart := cs.takeWhile Char.isDigit
  let rest := cs.dropWhile Char.isDigit
  match rest with
  | '.' :: rest2 =>
    let fracPart := rest2.takeWhile Char.isDigit
    let rest3 := rest2.dropWhile Char.isDigit
    if intPart.isEmpty && fracPart.isEmpty then none
    else some ((digitsVal intPart : ℚ) + (digitsVal fracPart : ℚ) / 10 ^ fracPart.length, rest3)
  | _ => if intPart.isEmpty then none else some ((digitsVal intPart : ℚ), rest)

/-- Parse an optionally signed exponent digit string. -/
def parseSignedDigits (cs : List Char) : Option ℤ :=
  match cs with
  | '+' :: r => if !r.isEmpty && r.all Char.isDigit then some (digitsVal r : ℤ) else none
  | '-' :: r => if !r.isEmpty && r.all Char.isDigit then some (-(digitsVal r : ℤ)) else none
  | r => if !r.isEmpty && r.all Char.isDigit then some (digitsVal r : ℤ) else none

/-- Strip leading and trailing whitespace from a character list. -/
def trimChars (cs : List Char) : List Char :=
  ((cs.dropWhile Char.isWhitespace).reverse.dropWhile Char.isWhitespace).reverse

/-- `Number(s)` for a string `s`: trim whitespace; the empty string is `0`;
otherwise an optional sign followed by a decimal mantissa and an optional
exponent; anything else is NaN (`none`). -/
def jsStringToNumber (s : String) : Option ℚ :=
  let t := trimChars s.toList
  if t.isEmpty then some 0
  else
    let signBody : Bool × List Char :=
      match t with
      | '-' :: r => (true, r)
      | '+' :: r => (false, r)
      | r => (false, r)
    match parseMantissa signBody.2 with
    | none => none
    | some (m, rest) =>
      match rest with
      | [] => some (if signBody.1 then -m else m)
      | 'e' :: r => (parseSignedDigits r).map (fun e => if signBody.1 then -(m * 10 ^ e) else m * 10 ^ e)
      | 'E' :: r => (parseSignedDigits r).map (fun e => if signBody.1 then -(m * 10 ^ e) else m * 10 ^ e)
      | _ => none

/-- `Number(v)` for a JSON value. -/
def jsToNumber : Json → Option ℚ
  | .null => some 0
  | .bool b => some (if b then 1 else 0)
  | .num q => some q
  | .str s => jsStringToNumber s
  | .arr [] => some 0
  | .arr (_ :: _) => none
  | .obj _ => none

/-- `Number(v) || 0`: `0` for NaN, the value otherwise (a value of `0` is
falsy, and `0 || 0` is again `0`). -/
def jsNumOrZero (n : Option ℚ) : ℚ := n.getD 0

/-! ## Response Normalizer (`App.jsx` lines 75–96) -/

/-- The canonical Product record built by the normalizer.  `asin` and `title`
hold whatever JSON value the source field had (or the fallback string);
`price` is `none` when unknown; `raw` is the untouched source element. -/
structure Product where
  asin : Json
  title : Json
  score : ℚ
  reviews : ℚ
  price : Option ℚ
  image : Option Json
  raw : Json

/-- `price.replace(/[^\d.]/g, "")`: strip every character that is not a
decimal digit or a dot. -/
def stripNonPriceChars (s : String) : String :=
  String.mk (s.toList.filter (fun c => c.isDigit || c == '.'))

/-- The `parsedPrice` computation of the normalizer (lines 79–86):

```js
const price = p?.price ?? p?.price_value ?? p?.pricing ?? null;
const parsedPrice =
  typeof price === "number" ? price
  : price && typeof price === "string" ? Number(price.replace(/[^\d.]/g, "")) || null
  : null;
```

Note `Number(...) || null`: a parse that fails (NaN) *or yields `0`* becomes
`null`, and an empty string is falsy so it also yields `null`. -/
def parsePriceValue (price : Option Json) : Option ℚ :=
  match price with
  | some (.num q) => some q
  | some (.str s) =>
    if s = "" then none
    else
      match jsStringToNumber (stripNonPriceChars s) with
      | some q => if q = 0 then none else some q
      | none => none
  | _ => none

/-- One element of the normalizer's `arr.map((p, idx) => ...)` (lines 78–96).
`placeholder idx` models `Math.round(Math.random() * 2000)`, the random
review-count fallback — always a natural number in the source as well. -/
def normalizeElem (placeholder : ℕ → ℕ) (idx : ℕ) (p : Json) : Product :=
  { asin := (p.get? "asin" <|> p.get? "ASIN").getD (.str ("ASINFALLBACK" ++ toString idx)),
    title := (p.get? "title" <|> p.get? "name" <|> p.get? "summary").getD (.str "Untitled product"),
    score := jsNumOrZero (jsToNumber ((p.get? "score" <|> p.get? "similarity").getD (.num 0))),
    reviews := jsNumOrZero (jsToNumber
      ((p.get? "reviews" <|> p.get? "review_count").getD (.num (placeholder idx)))),
    price := parsePriceValue (p.get? "price" <|> p.get? "price_value" <|> p.get? "pricing"),
    image := p.get? "image",
    raw := p }

/-- The Response Normalizer (lines 75–96): a non-array JSON value is treated
as the empty array, an array is mapped element-wise. -/
def normalizeResponse (placeholder : ℕ → ℕ) (json : Json) : List Product :=
  match json with
  | .arr l => l.mapIdx (fun idx p => normalizeElem placeholder idx p)
  | _ => []

/-! ## Filter / Sort / Paginate pipeline (`App.jsx` lines 98–118, 201–203) -/

/-- The price filter predicate (lines 100–106): a Product with a (non-NaN)
numeric price is kept iff `minP ≤ price ≤ maxP`; a Product whose price is
missing is always included.  (A `some` price is never NaN in the model,
matching `parsedPrice`, which turns NaN into `null`.) -/
def priceFilterKeep (minP maxP : ℚ) (x : Product) : Bool :=
  match x.price with
  | some p => decide (minP ≤ p) && decide (p ≤ maxP)
  | none => true

/-- `normalized.filter(...)` (line 100). -/
def filterProducts (minP maxP : ℚ) (l : List Product) : List Product :=
  l.filter (priceFilterKeep minP maxP)

/-- The sort comparator (lines 109–118):

```js
if (sortBy === "price") {
  if (typeof a.price !== "number") return 1;
  if (typeof b.price !== "number") return -1;
  return a.price - b.price;
}
if (sortBy === "reviews") return b.reviews - a.reviews;
return b.score - a.score;
```
-/
def jsCompare (sortBy : String) (a b : Product) : ℚ :=
  if sortBy = "price" then
    match a.price, b.price with
    | none, _ => 1
    | some _, none => -1
    | some pa, some pb => pa - pb
  else if sortBy = "reviews" then b.reviews - a.reviews
  else b.score - a.score

/-- The non-strict order induced by the comparator. -/
def productLE (sortBy : String) (a b : Product) : Bool :=
  decide (jsCompare sortBy a b ≤ 0)

/-- `filtered.sort(comparator)` (line 109).  ECMA-262 specifies
`Array.prototype.sort` to be stable whenever the comparator is consistent;
it is modelled by the stable `List.mergeSort` with `le a b ↔ compare(a,b) ≤ 0`.
(For the `"price"` key the comparator is *inconsistent* on pairs of products
that both lack a price — it returns `1` for both orders — so ECMA-262 leaves
their relative order implementation-defined; the model realises one stable
algorithm.) -/
def sortProducts (sortBy : String) (l : List Product) : List Product :=
  l.mergeSort (productLE sortBy)

/-- C5. The filter keeps a Product iff its price is absent or lies within the
inclusive window `[minP, maxP]`; in particular a Product with unknown price is
never excluded. -/
theorem filter_keeps_iff_price_absent_or_in_window (minP maxP : ℚ)
    (l : List Product) (x : Product) :
    x ∈ filterProducts minP maxP l ↔
      x ∈ l ∧ (x.price = none ∨ ∃ p, x.price = some p ∧ minP ≤ p ∧ p ≤ maxP) := by
  have hiff : priceFilterKeep minP maxP x = true ↔
      (x.price = none ∨ ∃ p, x.price = some p ∧ minP ≤ p ∧ p ≤ maxP) := by
    unfold priceFilterKeep
    cases hp : x.price with
    | none => simp
    | some p => simp [hp]
  rw [filterProducts, List.mem_filter, hiff]

/-- C2. The Response Normalizer is total: every array yields exactly one
Product per element; a non-array is treated as the empty array; a `null`
element and an empty-object element produce the fully defaulted Product; a
string price such as `"₹1,299"` parses to `1299`. -/
theorem normalizer_total_with_defaults (placeholder : ℕ → ℕ) (l : List Json)
    (j : Json) (i : ℕ) (hj : j.isArray = false) :
    (normalizeResponse placeholder (.arr l)).length = l.length ∧
    normalizeResponse placeholder j = [] ∧
    normalizeElem placeholder i .null =
      { asin := .str ("ASINFALLBACK" ++ toString i), title := .str "Untitled product",
        score := 0, reviews := (placeholder i : ℚ), price := none, image := none,
        raw := .null } ∧
    normalizeElem placeholder i (.obj []) =
      { asin := .str ("ASINFALLBACK" ++ toString i), title := .str "Untitled product",
        score := 0, reviews := (placeholder i : ℚ), price := none, image := none,
        raw := .obj [] } ∧
    (normalizeElem placeholder i (.obj [("price", .str "₹1,299")])).price = some 1299 := by
  refine ⟨by simp [normalizeResponse], ?_, rfl, rfl, rfl⟩
  cases j <;> simp_all [normalizeResponse, Json.isArray]

/-- Witness for C2 at a concrete placeholder, batch, non-array value and
index. -/
theorem normalizer_total_with_defaults_witness :
    (Json.num 3).isArray = false ∧
    ((normalizeResponse (fun _ => 7) (.arr [.null])).length = [Json.null].length ∧
     normalizeResponse (fun _ => 7) (.num 3) = [] ∧
     normalizeElem (fun _ => 7) 0 .null =
       { asin := .str ("ASINFALLBACK" ++ toString 0), title := .str "Untitled product",
         score := 0, reviews := ((7 : ℕ) : ℚ), price := none, image := none,
         raw := .null } ∧
     normalizeElem (fun _ => 7) 0 (.obj []) =
       { asin := .str ("ASINFALLBACK" ++ toString 0), title := .str "Untitled product",
         score := 0, reviews := ((7 : ℕ) : ℚ), price := none, image := none,
         raw := .obj [] } ∧
     (normalizeElem (fun _ => 7) 0 (.obj [("price", .str "₹1,299")])).price = some 1299) :=
  ⟨rfl, normalizer_total_with_defaults (fun _ => 7) [.null] (.num 3) 0 rfl⟩

/-- C3 counterexample: the source element `{price: "0"}` has a string price
whose stripped parse is the finite number `0`, yet the normalizer yields
absent-price for it (because of `Number(...) || null`), contradicting the
claim that a parse result of `0` is kept. -/
theorem price_zero_string_parses_to_absent :
    jsStringToNumber (stripNonPriceChars "0") = some 0 ∧
    (normalizeElem (fun _ => 0) 0 (.obj [("price", .str "0")])).price = none :=
  ⟨rfl, rfl⟩

/-- C3 (amended). Price parsing: a number value is kept as-is; a string value
yields absent-price when empty; a non-empty string is stripped of every
character that is not a digit or decimal point and parsed, yielding the
parsed number when that parse is a finite *nonzero* number and absent-price
when the parse fails (NaN) or yields exactly `0`; any other value type yields
absent-price; and the normalizer's `price` field is exactly this parse of the
`price ?? price_value ?? pricing` chain. -/
theorem price_parsing_rule_amended :
    (∀ q : ℚ, parsePriceValue (some (.num q)) = some q) ∧
    parsePriceValue (some (.str "")) = none ∧
    (∀ (s : String) (q : ℚ), s ≠ "" →
      jsStringToNumber (stripNonPriceChars s) = some q → q ≠ 0 →
      parsePriceValue (some (.str s)) = some q) ∧
    (∀ s : String, s ≠ "" → jsStringToNumber (stripNonPriceChars s) = some 0 →
      parsePriceValue (some (.str s)) = none) ∧
    (∀ s : String, s ≠ "" → jsStringToNumber (stripNonPriceChars s) = none →
      parsePriceValue (some (.str s)) = none) ∧
    (∀ j : Json, (∀ q : ℚ, j ≠ .num q) → (∀ s : String, j ≠ .str s) →
      parsePriceValue (some j) = none) ∧
    parsePriceValue none = none ∧
    (∀ (placeholder : ℕ → ℕ) (i : ℕ) (p : Json),
      (normalizeElem placeholder i p).price =
        parsePriceValue (p.get? "price" <|> p.get? "price_value" <|> p.get? "pricing")) := by
  refine ⟨fun q => rfl, rfl, ?_, ?_, ?_, ?_, rfl, fun placeholder i p => rfl⟩
  · intro s q hs hq hq0
    simp [parsePriceValue, hs, hq, hq0]
  · intro s hs hq
    simp [parsePriceValue, hs, hq]
  · intro s hs hq
    simp [parsePriceValue, hs, hq]
  · intro j hnum hstr
    cases j with
    | num q => exact absurd rfl (hnum q)
    | str s => exact absurd rfl (hstr s)
    | _ => rfl

/-- Witness for C3 (amended): concrete instances of the string clauses. -/
theorem price_parsing_rule_amended_witness :
    parsePriceValue (some (.str "₹1,299")) = some 1299 ∧
    parsePriceValue (some (.str "0")) = none ∧
    parsePriceValue (some (.str "...")) = none :=
  ⟨price_parsing_rule_amended.2.2.1 "₹1,299" 1299 (by decide) rfl (by norm_num),
   price_parsing_rule_amended.2.2.2.1 "0" (by decide) rfl,
   price_parsing_rule_amended.2.2.2.2.1 "..." (by decide) rfl⟩

/-! ## Pagination (`App.jsx` lines 26, 201–203, 271–281) -/

/-- `const PAGE_SIZE = 12` (line 26). -/
def PAGE_SIZE : ℕ := 12

/-- `Math.max(1, Math.ceil(products.length / PAGE_SIZE))` (line 202);
`Math.ceil(n / 12)` for naturals is `(n + 11) / 12` in truncating division. -/
def totalPagesOf (products : List Product) : ℕ :=
  max 1 ((products.length + (PAGE_SIZE - 1)) / PAGE_SIZE)

/-- `products.slice((page - 1) * PAGE_SIZE, page * PAGE_SIZE)` (line 203):
`slice(s, e)` drops `s` elements and takes the next `e - s`. -/
def shownOf (products : List Product) (page : ℕ) : List Product :=
  (products.drop ((page - 1) * PAGE_SIZE)).take (page * PAGE_SIZE - (page - 1) * PAGE_SIZE)

/-- The Prev button (line 272): `setPage(p => Math.max(1, p - 1))`. -/
def prevPageClick (page : ℕ) : ℕ := max 1 (page - 1)

/-- The Next button (line 278): `setPage(p => Math.min(totalPages, p + 1))`. -/
def nextPageClick (totalPages page : ℕ) : ℕ := min totalPages (page + 1)

theorem shownOf_succ (l : List Product) (k : ℕ) :
    shownOf l (k + 1) = (l.drop (k * PAGE_SIZE)).take PAGE_SIZE := by
  have h : (k + 1) * PAGE_SIZE - k * PAGE_SIZE = PAGE_SIZE := by
    simp only [PAGE_SIZE]; omega
  simp only [shownOf, Nat.add_sub_cancel, h]

theorem join_pages (n : ℕ) (l : List Product) :
    ((List.range n).map (fun k => shownOf l (k + 1))).flatten = l.take (n * PAGE_SIZE) := by
  induction n with
  | zero => simp
  | succ m ih =>
    rw [List.range_succ, List.map_append, List.flatten_append,
      show (m + 1) * PAGE_SIZE = m * PAGE_SIZE + PAGE_SIZE from by ring, List.take_add, ih]
    simp [shownOf_succ]

theorem length_le_totalPages_mul (l : List Product) :
    l.length ≤ totalPagesOf l * PAGE_SIZE := by
  simp only [totalPagesOf, PAGE_SIZE]
  omega

/-- C7. Pagination laws: the concatenation of pages `1..totalPages` is the
whole product list; every shown slice has at most `PAGE_SIZE` elements; and
the Prev/Next transitions keep `page` clamped inside `[1, totalPages]`. -/
theorem pagination_laws (l : List Product) (page : ℕ)
    (h1 : 1 ≤ page) (h2 : page ≤ totalPagesOf l) :
    ((List.range (totalPagesOf l)).map (fun k => shownOf l (k + 1))).flatten = l ∧
    (shownOf l page).length ≤ PAGE_SIZE ∧
    1 ≤ prevPageClick page ∧ prevPageClick page ≤ totalPagesOf l ∧
    1 ≤ nextPageClick (totalPagesOf l) page ∧
    nextPageClick (totalPagesOf l) page ≤ totalPagesOf l := by
  have hT : 1 ≤ totalPagesOf l := le_max_left _ _
  refine ⟨?_, ?_, ?_, ?_, ?_, ?_⟩
  · rw [join_pages]
    exact List.take_of_length_le (length_le_totalPages_mul l)
  · obtain ⟨k, rfl⟩ : ∃ k, page = k + 1 := ⟨page - 1, by omega⟩
    rw [shownOf_succ]
    exact List.length_take_le _ _
  · exact le_max_left _ _
  · simp only [prevPageClick]; omega
  · simp only [nextPageClick]; omega
  · exact min_le_left _ _

/-- Witness for C7 on the empty product list at `page = 1`. -/
theorem pagination_laws_witness :
    (1 ≤ 1 ∧ 1 ≤ totalPagesOf []) ∧
    (((List.range (totalPagesOf [])).map (fun k => shownOf [] (k + 1))).flatten = [] ∧
     (shownOf [] 1).length ≤ PAGE_SIZE ∧
     1 ≤ prevPageClick 1 ∧ prevPageClick 1 ≤ totalPagesOf [] ∧
     1 ≤ nextPageClick (totalPagesOf []) 1 ∧
     nextPageClick (totalPagesOf []) 1 ≤ totalPagesOf []) :=
  ⟨⟨le_refl 1, by simp [totalPagesOf]⟩, pagination_laws [] 1 (le_refl 1) (by simp [totalPagesOf])⟩

/-! ## Application state and the request-lifecycle handlers -/

/-- Value stored in `trustFor.data` once a lookup settles: the parsed JSON
payload, or the error record built in the `catch` block. -/
inductive TrustData where
  | ok (j : Json)
  | err (msg : String)

/-- The `trustFor` object (lines 146, 155, 160). -/
structure TrustState where
  asin : String
  loading : Bool
  data : Option TrustData

/-- The React state of `App` (lines 19–31). -/
structure AppState where
  prompt : String
  debouncedPrompt : String
  priceImportance : ℤ
  priceRange : ℤ × ℤ
  sortBy : String
  page : ℕ
  products : List Product
  loading : Bool
  error : Option String
  trustFor : Option TrustState

/-- The initial state from the `useState` initialisers (lines 19–31). -/
def initialAppState : AppState :=
  { prompt := "laptop", debouncedPrompt := "laptop", priceImportance := 30,
    priceRange := (0, 20000), sortBy := "score", page := 1, products := [],
    loading := false, error := none, trustFor := none }

/-- One `setXxx` state update. -/
inductive Update where
  | setProducts (l : List Product)
  | setPage (n : ℕ)
  | setLoading (b : Bool)
  | setError (e : Option String)
  | setTrustFor (t : Option TrustState)
  | setPriceRange (r : ℤ × ℤ)
  | setSortBy (v : String)
  | setPrompt (v : String)
  | setPriceImportance (n : ℤ)

def applyUpdate (s : AppState) : Update → AppState
  | .setProducts l => { s with products := l }
  | .setPage n => { s with page := n }
  | .setLoading b => { s with loading := b }
  | .setError e => { s with error := e }
  | .setTrustFor t => { s with trustFor := t }
  | .setPriceRange r => { s with priceRange := r }
  | .setSortBy v => { s with sortBy := v }
  | .setPrompt v => { s with prompt := v }
  | .setPriceImportance n => { s with priceImportance := n }

/-- Apply a handler's state updates in program order. -/
def applyUpdates (s : AppState) (us : List Update) : AppState :=
  us.foldl applyUpdate s

/-- `x || fallback` for strings: the empty string is falsy. -/
def jsStrOrElse (x fallback : String) : String :=
  if x = "" then fallback else x

/-- A `sendLog(level, message, meta)` event. -/
structure LogEvent where
  level : String
  message : String
  meta : Json

/-! ## Query Orchestrator: `fetchRecommendations` (lines 54–134) -/

/-- Outcome of the awaited network/JSON steps of one recommend request. -/
inductive FetchOutcome where
  | networkError (msg : String)
  | httpNotOk (status : ℕ) (text : String)
  | invalidJson
  | success (j : Json)

/-- §4.3–§4.4 applied to a successful recommend payload (lines 75–118): the
normalizer, the price filter against the captured `priceRange`, and the sort
by the captured `sortBy`. -/
def recommendPipeline (placeholder : ℕ → ℕ) (s : AppState) (j : Json) : List Product :=
  sortProducts s.sortBy
    (filterProducts (s.priceRange.1 : ℚ) (s.priceRange.2 : ℚ)
      (normalizeResponse placeholder j))

/-- The state updates of one run of `fetchRecommendations` (lines 54–132):
`setLoading(true)` and `setError(null)` first; on success
`setProducts(sorted)` then `setPage(1)`; on any failure
`setError(e.message || "Failed to load recommendations")` then
`setProducts([])` (for `!res.ok` the thrown message is
`text || "Bad response: <status>"`); finally `setLoading(false)`. -/
def fetchRecommendationsUpdates (placeholder : ℕ → ℕ) (s : AppState)
    (o : FetchOutcome) : List Update :=
  [.setLoading true, .setError none] ++
  (match o with
   | .success j => [.setProducts (recommendPipeline placeholder s j), .setPage 1]
   | .httpNotOk status text =>
     [.setError (some (jsStrOrElse
        (jsStrOrElse text ("Bad response: " ++ toString status))
        "Failed to load recommendations")),
      .setProducts []]
   | .invalidJson =>
     [.setError (some (jsStrOrElse "Invalid JSON returned from /api/recommend"
        "Failed to load recommendations")),
      .setProducts []]
   | .networkError msg =>
     [.setError (some (jsStrOrElse msg "Failed to load recommendations")),
      .setProducts []]) ++
  [.setLoading false]

/-- C8. Every invocation of the orchestrator first sets `loading := true` and
clears `error`; it always ends with `loading = false`; on success it stores
the filtered+sorted products, resets `page` to 1 and leaves `error` cleared;
on any failure it stores a single error string and clears the product list. -/
theorem fetch_lifecycle (placeholder : ℕ → ℕ) (s : AppState) (o : FetchOutcome) :
    applyUpdates s ((fetchRecommendationsUpdates placeholder s o).take 2)
      = { s with loading := true, error := none } ∧
    (applyUpdates s (fetchRecommendationsUpdates placeholder s o)).loading = false ∧
    (match o with
     | .success j =>
       (applyUpdates s (fetchRecommendationsUpdates placeholder s o)).products
           = recommendPipeline placeholder s j ∧
       (applyUpdates s (fetchRecommendationsUpdates placeholder s o)).page = 1 ∧
       (applyUpdates s (fetchRecommendationsUpdates placeholder s o)).error = none
     | _ =>
       (∃ msg, (applyUpdates s (fetchRecommendationsUpdates placeholder s o)).error
           = some msg) ∧
       (applyUpdates s (fetchRecommendationsUpdates placeholder s o)).products = []) := by
  cases o <;>
    simp [fetchRecommendationsUpdates, applyUpdates, applyUpdate]

/-! ## Trust Detail Fetcher: `handleTrust` (lines 145–163) -/

/-- Outcome of the awaited steps of one trust lookup. -/
inductive TrustOutcome where
  | networkError (msg : String)
  | httpNotOk (status : ℕ) (text : String)
  | invalidJson
  | success (j : Json)

/-- `setTrustFor({ asin, loading: true, data: null })` (line 146). -/
def handleTrustStart (asin : String) : List Update :=
  [.setTrustFor (some { asin := asin, loading := true, data := none })]

/-- The `data` stored when the lookup for `asin` settles (lines 149–161):
the parsed JSON on success; the object `{error: "Invalid JSON from /api/trust"}`
if `res.json()` rejected (the `.catch` on line 154 turns it into a payload,
not an exception); an error record from the `catch` block for HTTP or network
failures. -/
def trustResult (o : TrustOutcome) : TrustData :=
  match o with
  | .success j => .ok j
  | .invalidJson => .ok (.obj [("error", .str "Invalid JSON from /api/trust")])
  | .httpNotOk status text => .err (jsStrOrElse text ("Bad response: " ++ toString status))
  | .networkError msg => .err msg

/-- The completion of the lookup for `asin` (lines 155 and 160):
`setTrustFor({asin, loading:false, data})`, executed unconditionally. -/
def handleTrustFinish (asin : String) (o : TrustOutcome) : List Update :=
  [.setTrustFor (some { asin := asin, loading := false, data := some (trustResult o) })]

/-- C9 counterexample: a trust lookup for `"A1"` is superseded by a lookup for
`"A2"`, which completes; when the stale `"A1"` completion then runs, its
result *is* observed — `trustFor` reverts to `"A1"`'s data, because the
completion handler performs no comparison with the active TrustState. -/
theorem stale_trust_completion_observed :
    (applyUpdates initialAppState
      (handleTrustStart "A1" ++ handleTrustStart "A2" ++
       handleTrustFinish "A2" (.success (.obj [("trust_score", .num 1)])) ++
       handleTrustFinish "A1" (.success (.obj [("trust_score", .num 0)])))).trustFor
      = some { asin := "A1", loading := false,
               data := some (.ok (.obj [("trust_score", .num 0)])) } ∧
    ("A1" : String) ≠ "A2" :=
  ⟨rfl, by decide⟩

/-- C9 (amended). The completion handler stores
`{asin, loading:false, data}` unconditionally — it never compares the
response's `asin` with the currently active TrustState — so the last write
wins: after a superseded lookup's completion arrives late, TrustState holds
the superseded `asin`'s data, whatever state was active before. -/
theorem trust_completion_unconditional (s : AppState) (a1 a2 : String)
    (o1 o2 : TrustOutcome) :
    (applyUpdates s (handleTrustFinish a1 o1)).trustFor
      = some { asin := a1, loading := false, data := some (trustResult o1) } ∧
    (applyUpdates s (handleTrustStart a1 ++ handleTrustStart a2 ++
        handleTrustFinish a2 o2 ++ handleTrustFinish a1 o1)).trustFor
      = some { asin := a1, loading := false, data := some (trustResult o1) } :=
  ⟨rfl, rfl⟩

/-! ## Bundle Request: `handleGenerateBundle` (lines 165–199) -/

/-- Approximate JavaScript stringification, used when the parsed error body's
`detail`/`error` field is not a string (`"Bundle failed: " + e.message`).
Number formatting of the rational and array stringification are documented
approximations; the claims never depend on them. -/
def jsDisplay : Json → String
  | .str s => s
  | .num q => toString q
  | .bool b => if b then "true" else "false"
  | .null => "null"
  | .arr _ => ""
  | .obj _ => "[object Object]"

/-- Outcome of the awaited steps of one bundle request.  For a non-OK
response, `text` is `res.text()` (or `""` if reading it failed) and `parsed`
is the result of `JSON.parse(text)` when that parse succeeded. -/
inductive BundleOutcome where
  | networkError (msg : String)
  | httpNotOk (status : ℕ) (text : String) (parsed : Option Json)
  | invalidJson
  | success (j : Json)

/-- What one run of `handleGenerateBundle` produces: state updates (none in
the source — the handler calls no state setter), log events, and the blocking
`alert` notification. -/
structure BundleResult where
  updates : List Update
  logs : List LogEvent
  alertMessage : String

/-- `handleGenerateBundle` (lines 165–199).  On a non-OK response the error
message is `parsed?.detail ?? parsed?.error ?? text` (the final
`?? "HTTP <status>"` of line 184 is unreachable because `text` is always a
string); on success it alerts that the bundle was generated; every path only
logs and alerts. -/
def handleGenerateBundle (s : AppState) (o : BundleOutcome) : BundleResult :=
  let requestLog : LogEvent :=
    { level := "info", message := "bundle:request",
      meta := .obj [("prompt", .str s.debouncedPrompt)] }
  match o with
  | .success j =>
    { updates := [],
      logs := [requestLog,
        { level := "success", message := "bundle:done", meta := .obj [("j", j)] }],
      alertMessage := "Bundle generated (check console / backend)." }
  | .httpNotOk _status text parsed =>
    let detail :=
      (((parsed.bind (fun p => p.get? "detail")) <|>
        (parsed.bind (fun p => p.get? "error"))).map jsDisplay).getD text
    { updates := [],
      logs := [requestLog,
        { level := "error", message := "bundle:error",
          meta := .obj [("message", .str detail)] }],
      alertMessage := "Bundle failed: " ++ detail }
  | .invalidJson =>
    { updates := [],
      logs := [requestLog,
        { level := "error", message := "bundle:error",
          meta := .obj [("message", .str "Invalid JSON from /api/generate_bundle")] }],
      alertMessage := "Bundle failed: " ++ "Invalid JSON from /api/generate_bundle" }
  | .networkError msg =>
    { updates := [],
      logs := [requestLog,
        { level := "error", message := "bundle:error",
          meta := .obj [("message", .str msg)] }],
      alertMessage := "Bundle failed: " ++ msg }

/-- C10. The bundle-request workflow never modifies QueryState or TrustState:
on every outcome the handler's state updates leave `products`, `page`,
`loading`, `error`, `priceRange`, `sortBy`, `prompt` and `trustFor` (indeed
the whole state) unchanged; it only emits log events and a notification. -/
theorem bundle_request_preserves_state (s : AppState) (o : BundleOutcome) :
    applyUpdates s (handleGenerateBundle s o).updates = s ∧
    (applyUpdates s (handleGenerateBundle s o).updates).products = s.products ∧
    (applyUpdates s (handleGenerateBundle s o).updates).page = s.page ∧
    (applyUpdates s (handleGenerateBundle s o).updates).loading = s.loading ∧
    (applyUpdates s (handleGenerateBundle s o).updates).error = s.error ∧
    (applyUpdates s (handleGenerateBundle s o).updates).priceRange = s.priceRange ∧
    (applyUpdates s (handleGenerateBundle s o).updates).sortBy = s.sortBy ∧
    (applyUpdates s (handleGenerateBundle s o).updates).prompt = s.prompt ∧
    (applyUpdates s (handleGenerateBundle s o).updates).trustFor = s.trustFor := by
  cases o <;> exact ⟨rfl, rfl, rfl, rfl, rfl, rfl, rfl, rfl, rfl⟩

/-! ## Sort stability (C6)

The comparator of `sortProducts` is *inconsistent* for the `"price"` key on
pairs of products that both lack a price: it returns `1` for both orders.
ECMA-262 guarantees a stable result only for consistent comparators, and the
stable-merge model indeed swaps such a pair (`absent_price_pair_reordered`).
For every other pair of equal keys, stability is proved
(`sort_stable_on_equal_keys`): the development below shows that the
merge sort run with the partial price order agrees, on the priced products,
with the merge sort run with a totalised price order, to which the core
stability theorem applies. -/

/-- Whether a Product carries a known price. -/
def pricedB (x : Product) : Bool := x.price.isSome

/-- Totalised price order: agrees with `productLE "price"` on every pair
except two unpriced products, which it makes comparable.  Used only to state
and prove stability; the sort itself uses `productLE`. -/
def lePriceTot (a b : Product) : Bool :=
  match a.price, b.price with
  | none, none => true
  | none, some _ => false
  | some _, none => true
  | some pa, some pb => decide (pa ≤ pb)

/-- No priced product appears after an unpriced one. -/
def PricedShape (l : List Product) : Prop :=
  l.Pairwise (fun x y => pricedB y = true → pricedB x = true)

theorem jsCompare_price_none_left {a : Product} (b : Product) (ha : a.price = none) :
    jsCompare "price" a b = 1 := by
  simp [jsCompare, ha]

theorem jsCompare_price_some_none {a b : Product} {pa : ℚ}
    (ha : a.price = some pa) (hb : b.price = none) :
    jsCompare "price" a b = -1 := by
  simp [jsCompare, ha, hb]

theorem jsCompare_price_some_some {a b : Product} {pa pb : ℚ}
    (ha : a.price = some pa) (hb : b.price = some pb) :
    jsCompare "price" a b = pa - pb := by
  simp [jsCompare, ha, hb]

theorem productLE_price_none_left {a : Product} (b : Product) (ha : a.price = none) :
    productLE "price" a b = false := by
  simp [productLE, jsCompare_price_none_left b ha]

theorem productLE_price_some_none {a b : Product} {pa : ℚ}
    (ha : a.price = some pa) (hb : b.price = none) :
    productLE "price" a b = true := by
  simp [productLE, jsCompare_price_some_none ha hb]

theorem productLE_price_some_some {a b : Product} {pa pb : ℚ}
    (ha : a.price = some pa) (hb : b.price = some pb) :
    productLE "price" a b = decide (pa ≤ pb) := by
  simp [productLE, jsCompare_price_some_some ha hb, sub_nonpos]

theorem pricedB_eq_false_iff {x : Product} : pricedB x = false ↔ x.price = none := by
  cases hp : x.price <;> simp [pricedB, hp]

theorem pricedB_eq_true_iff {x : Product} : pricedB x = true ↔ ∃ p, x.price = some p := by
  cases hp : x.price <;> simp [pricedB, hp]

theorem lePriceTot_trans (a b c : Product) :
    lePriceTot a b → lePriceTot b c → lePriceTot a c := by
  unfold lePriceTot
  cases ha : a.price <;> cases hb : b.price <;> cases hc : c.price <;> simp_all
  exact le_trans

theorem lePriceTot_total (a b : Product) : lePriceTot a b || lePriceTot b a := by
  unfold lePriceTot
  cases ha : a.price <;> cases hb : b.price <;> simp_all
  exact le_total _ _

/-- Evaluating the stable merge sort on a two-element list. -/
theorem mergeSort_pair (le : Product → Product → Bool) (a b : Product) :
    [a, b].mergeSort le = if le a b then [a, b] else [b, a] := by
  rw [List.mergeSort]
  simp only [List.splitInTwo_fst, List.splitInTwo_snd]
  norm_num [List.cons_merge_cons]

/-- The two concrete unpriced products of the C6 counterexample. -/
def unpricedA : Product :=
  { asin := .str "A", title := .str "A", score := 0, reviews := 0,
    price := none, image := none, raw := .null }

def unpricedB : Product :=
  { asin := .str "B", title := .str "B", score := 0, reviews := 0,
    price := none, image := none, raw := .null }

/-- C6 counterexample: under the `"price"` key the comparator reports each of
two absent-price products greater than the other (an inconsistent
comparator), and the stable-merge model of `Array.prototype.sort` swaps the
pair: the two equal-key elements do *not* preserve their original relative
order. -/
theorem absent_price_pair_reordered :
    jsCompare "price" unpricedA unpricedB = 1 ∧
    jsCompare "price" unpricedB unpricedA = 1 ∧
    sortProducts "price" [unpricedA, unpricedB] = [unpricedB, unpricedA] ∧
    unpricedA ≠ unpricedB := by
  refine ⟨rfl, rfl, ?_, ?_⟩
  · rw [sortProducts, mergeSort_pair, if_neg]
    intro h
    have : productLE "price" unpricedA unpricedB = false := by
      rw [productLE_price_none_left unpricedB rfl]
    rw [h] at this
    cases this
  · intro h
    have h2 := congrArg Product.asin h
    simp [unpricedA, unpricedB] at h2

/-- Merging two shaped lists yields a shaped list, provided the comparator
puts every priced product before every unpriced one. -/
theorem merge_shape (le : Product → Product → Bool)
    (hA : ∀ x y, pricedB x = true → pricedB y = false → le x y = true)
    (hB : ∀ x y, pricedB x = false → pricedB y = true → le x y = false) :
    ∀ (A B : List Product), PricedShape A → PricedShape B →
      PricedShape (A.merge B le)
  | [], B, _, hb => by simpa [List.nil_merge] using hb
  | x :: xs, [], ha, _ => by simpa [List.merge_right] using ha
  | x :: xs, y :: ys, ha, hb => by
    rw [List.cons_merge_cons]
    obtain ⟨hax, ha'⟩ := List.pairwise_cons.mp ha
    obtain ⟨hby, hb'⟩ := List.pairwise_cons.mp hb
    by_cases hxy : le x y = true
    · rw [if_pos hxy]
      refine List.pairwise_cons.mpr ⟨?_, merge_shape le hA hB xs (y :: ys) ha' hb⟩
      intro z hz hpz
      cases hx : pricedB x with
      | true => rfl
      | false =>
        exfalso
        have hy : pricedB y = false := by
          cases hyy : pricedB y with
          | false => rfl
          | true => rw [hB x y hx hyy] at hxy; cases hxy
        rcases List.mem_merge.mp hz with hzx | hzy
        · have hcontra := hax z hzx hpz
          rw [hx] at hcontra; cases hcontra
        · rcases List.mem_cons.mp hzy with rfl | hzy'
          · rw [hpz] at hy; cases hy
          · have hcontra := hby z hzy' hpz
            rw [hy] at hcontra; cases hcontra
    · rw [if_neg hxy]
      refine List.pairwise_cons.mpr ⟨?_, merge_shape le hA hB (x :: xs) ys ha hb'⟩
      intro z hz hpz
      cases hy : pricedB y with
      | true => rfl
      | false =>
        exfalso
        have hx : pricedB x = false := by
          cases hxx : pricedB x with
          | false => rfl
          | true => exact absurd (hA x y hxx hy) hxy
        rcases List.mem_merge.mp hz with hzx | hzy
        · rcases List.mem_cons.mp hzx with rfl | hzx'
          · rw [hpz] at hx; cases hx
          · have hcontra := hax z hzx' hpz
            rw [hx] at hcontra; cases hcontra
        · have hcontra := hby z hzy hpz
          rw [hy] at hcontra; cases hcontra
  termination_by A B => A.length + B.length

/-- When every element of the right list is unpriced, merging adds nothing to
the priced part. -/
theorem filter_merge_right_unpriced (le : Product → Product → Bool) :
    ∀ (L R : List Product), (∀ r ∈ R, pricedB r = false) →
      (L.merge R le).filter pricedB = L.filter pricedB
  | [], R, h => by
    rw [List.nil_merge]
    exact List.filter_eq_nil_iff.mpr (fun a ha => by simp [h a ha])
  | L, [], _ => by rw [List.merge_right]
  | x :: xs, y :: ys, h => by
    rw [List.cons_merge_cons]
    by_cases hxy : le x y = true
    · rw [if_pos hxy]
      rw [List.filter_cons, List.filter_cons]
      rw [filter_merge_right_unpriced le xs (y :: ys) h]
    · rw [if_neg hxy]
      rw [List.filter_cons, if_neg (by simp [h y (List.mem_cons_self y ys)])]
      exact filter_merge_right_unpriced le (x :: xs) ys
        (fun r hr => h r (List.mem_cons_of_mem y hr))
  termination_by L R => L.length + R.length

/-- When every element of the left list is unpriced, merging adds nothing to
the priced part. -/
theorem filter_merge_left_unpriced (le : Product → Product → Bool) :
    ∀ (L R : List Product), (∀ x ∈ L, pricedB x = false) →
      (L.merge R le).filter pricedB = R.filter pricedB
  | [], R, _ => by rw [List.nil_merge]
  | x :: xs, [], h => by
    rw [List.merge_right]
    exact List.filter_eq_nil_iff.mpr (fun a ha => by simp [h a ha])
  | x :: xs, y :: ys, h => by
    rw [List.cons_merge_cons]
    by_cases hxy : le x y = true
    · rw [if_pos hxy]
      rw [List.filter_cons, if_neg (by simp [h x (List.mem_cons_self x xs)])]
      exact filter_merge_left_unpriced le xs (y :: ys)
        (fun r hr => h r (List.mem_cons_of_mem x hr))
    · rw [if_neg hxy]
      rw [List.filter_cons, List.filter_cons]
      rw [filter_merge_left_unpriced le (x :: xs) ys h]
  termination_by L R => L.length + R.length

/-- Filtering to the priced part commutes with merging shaped lists, for any
comparator that never puts an unpriced product before a priced one. -/
theorem filter_merge_of_shape (le : Product → Product → Bool)
    (hB : ∀ x y, pricedB x = false → pricedB y = true → le x y = false) :
    ∀ (A B : List Product), PricedShape A → PricedShape B →
      (A.merge B le).filter pricedB =
        (A.filter pricedB).merge (B.filter pricedB) le
  | [], B, _, _ => by rw [List.nil_merge, List.filter_nil, List.nil_merge]
  | x :: xs, [], _, _ => by rw [List.merge_right, List.filter_nil, List.merge_right]
  | x :: xs, y :: ys, ha, hb => by
    obtain ⟨hax, ha'⟩ := List.pairwise_cons.mp ha
    obtain ⟨hby, hb'⟩ := List.pairwise_cons.mp hb
    rw [List.cons_merge_cons]
    by_cases hxy : le x y = true
    · rw [if_pos hxy]
      cases hx : pricedB x with
      | true =>
        cases hy : pricedB y with
        | true =>
          rw [List.filter_cons_of_pos hx,
            filter_merge_of_shape le hB xs (y :: ys) ha' hb,
            List.filter_cons_of_pos hx, List.filter_cons_of_pos hy,
            List.cons_merge_cons, if_pos hxy]
        | false =>
          have hys : ∀ r ∈ y :: ys, pricedB r = false := by
            intro r hr
            rcases List.mem_cons.mp hr with rfl | hr'
            · exact hy
            · cases hpr : pricedB r with
              | false => rfl
              | true =>
                have hcontra := hby r hr' hpr
                rw [hy] at hcontra; cases hcontra
          have hfy : List.filter pricedB (y :: ys) = [] :=
            List.filter_eq_nil_iff.mpr (fun a hha => by simp [hys a hha])
          rw [hfy, List.merge_right, List.filter_cons_of_pos hx,
            List.filter_cons_of_pos hx,
            filter_merge_right_unpriced le xs (y :: ys) hys]
      | false =>
        have hy : pricedB y = false := by
          cases hyy : pricedB y with
          | false => rfl
          | true => rw [hB x y hx hyy] at hxy; cases hxy
        have hxs : ∀ r ∈ x :: xs, pricedB r = false := by
          intro r hr
          rcases List.mem_cons.mp hr with rfl | hr'
          · exact hx
          · cases hpr : pricedB r with
            | false => rfl
            | true =>
              have hcontra := hax r hr' hpr
              rw [hx] at hcontra; cases hcontra
        have hys : ∀ r ∈ y :: ys, pricedB r = false := by
          intro r hr
          rcases List.mem_cons.mp hr with rfl | hr'
          · exact hy
          · cases hpr : pricedB r with
            | false => rfl
            | true =>
              have hcontra := hby r hr' hpr
              rw [hy] at hcontra; cases hcontra
        have hfxs : List.filter pricedB xs = [] :=
          List.filter_eq_nil_iff.mpr
            (fun a hha => by simp [hxs a (List.mem_cons_of_mem x hha)])
        have hfx : List.filter pricedB (x :: xs) = [] :=
          List.filter_eq_nil_iff.mpr (fun a hha => by simp [hxs a hha])
        have hfy : List.filter pricedB (y :: ys) = [] :=
          List.filter_eq_nil_iff.mpr (fun a hha => by simp [hys a hha])
        rw [List.filter_cons_of_neg (by simp [hx]),
          filter_merge_right_unpriced le xs (y :: ys) hys, hfxs, hfx, hfy,
          List.nil_merge]
    · rw [if_neg hxy]
      cases hy : pricedB y with
      | true =>
        cases hx : pricedB x with
        | true =>
          rw [List.filter_cons_of_pos hy,
            filter_merge_of_shape le hB (x :: xs) ys ha hb',
            List.filter_cons_of_pos hx, List.filter_cons_of_pos hy,
            List.cons_merge_cons, if_neg hxy]
        | false =>
          have hxs : ∀ r ∈ x :: xs, pricedB r = false := by
            intro r hr
            rcases List.mem_cons.mp hr with rfl | hr'
            · exact hx
            · cases hpr : pricedB r with
              | false => rfl
              | true =>
                have hcontra := hax r hr' hpr
                rw [hx] at hcontra; cases hcontra
          have hfx : List.filter pricedB (x :: xs) = [] :=
            List.filter_eq_nil_iff.mpr (fun a hha => by simp [hxs a hha])
          rw [List.filter_cons_of_pos hy,
            filter_merge_left_unpriced le (x :: xs) ys hxs, hfx,
            List.nil_merge, List.filter_cons_of_pos hy]
      | false =>
        have hys : ∀ r ∈ ys, pricedB r = false := by
          intro r hr'
          cases hpr : pricedB r with
          | false => rfl
          | true =>
            have hcontra := hby r hr' hpr
            rw [hy] at hcontra; cases hcontra
        have hfy2 : List.filter pricedB (y :: ys) = [] := by
          rw [List.filter_cons_of_neg (by simp [hy])]
          exact List.filter_eq_nil_iff.mpr (fun a hha => by simp [hys a hha])
        rw [hfy2, List.merge_right, List.filter_cons_of_neg (by simp [hy]),
          filter_merge_right_unpriced le (x :: xs) ys hys]
  termination_by A B => A.length + B.length

theorem price_hA : ∀ x y, pricedB x = true → pricedB y = false →
    productLE "price" x y = true := by
  intro x y hx hy
  obtain ⟨px, hpx⟩ := pricedB_eq_true_iff.mp hx
  exact productLE_price_some_none hpx (pricedB_eq_false_iff.mp hy)

theorem price_hB : ∀ x y, pricedB x = false → pricedB y = true →
    productLE "price" x y = false := by
  intro x y hx _
  exact productLE_price_none_left y (pricedB_eq_false_iff.mp hx)

theorem tot_hA : ∀ x y, pricedB x = true → pricedB y = false →
    lePriceTot x y = true := by
  intro x y hx hy
  obtain ⟨px, hpx⟩ := pricedB_eq_true_iff.mp hx
  simp [lePriceTot, hpx, pricedB_eq_false_iff.mp hy]

theorem tot_hB : ∀ x y, pricedB x = false → pricedB y = true →
    lePriceTot x y = false := by
  intro x y hx hy
  obtain ⟨py, hpy⟩ := pricedB_eq_true_iff.mp hy
  simp [lePriceTot, hpy, pricedB_eq_false_iff.mp hx]

theorem productLE_price_eq_tot_of_priced (a b : Product)
    (ha : pricedB a = true) (hb : pricedB b = true) :
    productLE "price" a b = lePriceTot a b := by
  obtain ⟨pa, hpa⟩ := pricedB_eq_true_iff.mp ha
  obtain ⟨pb, hpb⟩ := pricedB_eq_true_iff.mp hb
  rw [productLE_price_some_some hpa hpb]
  simp [lePriceTot, hpa, hpb]

/-- The stable merge sort keeps every priced product before every unpriced
one, for any comparator that orders priced before unpriced. -/
theorem mergeSort_shape (le : Product → Product → Bool)
    (hA : ∀ x y, pricedB x = true → pricedB y = false → le x y = true)
    (hB : ∀ x y, pricedB x = false → pricedB y = true → le x y = false) :
    ∀ (l : List Product), PricedShape (l.mergeSort le)
  | [] => by simp [PricedShape]
  | [x] => by simp [PricedShape]
  | a :: b :: xs => by
    simp only [List.mergeSort, List.splitInTwo_fst, List.splitInTwo_snd]
    exact merge_shape le hA hB _ _
      (mergeSort_shape le hA hB _) (mergeSort_shape le hA hB _)
  termination_by l => l.length

/-- Merging depends on the comparator only at pairs drawn from the two
lists. -/
theorem merge_congr_on_mem (r s : Product → Product → Bool) :
    ∀ (X Y : List Product), (∀ a ∈ X, ∀ b ∈ Y, r a b = s a b) →
      X.merge Y r = X.merge Y s
  | [], Y, _ => by simp
  | x :: xs, [], _ => by simp
  | x :: xs, y :: ys, h => by
    rw [List.cons_merge_cons, List.cons_merge_cons,
      h x (List.mem_cons_self x xs) y (List.mem_cons_self y ys)]
    by_cases hxy : s x y = true
    · rw [if_pos hxy, if_pos hxy, merge_congr_on_mem r s xs (y :: ys)
        (fun c hc d hd => h c (List.mem_cons_of_mem x hc) d hd)]
    · rw [if_neg hxy, if_neg hxy, merge_congr_on_mem r s (x :: xs) ys
        (fun c hc d hd => h c hc d (List.mem_cons_of_mem y hd))]
  termination_by X Y => X.length + Y.length

/-- On the priced products, sorting with the source's partial price
comparator agrees with sorting with the totalised price order. -/
theorem filter_mergeSort_agree :
    ∀ (l : List Product),
      (l.mergeSort (productLE "price")).filter pricedB =
        (l.mergeSort lePriceTot).filter pricedB
  | [] => by simp
  | [x] => by simp
  | a :: b :: xs => by
    simp only [List.mergeSort, List.splitInTwo_fst, List.splitInTwo_snd]
    rw [filter_merge_of_shape (productLE "price") price_hB _ _
        (mergeSort_shape _ price_hA price_hB _) (mergeSort_shape _ price_hA price_hB _),
      filter_merge_of_shape lePriceTot tot_hB _ _
        (mergeSort_shape _ tot_hA tot_hB _) (mergeSort_shape _ tot_hA tot_hB _),
      filter_mergeSort_agree (List.take _ _), filter_mergeSort_agree (List.drop _ _)]
    exact merge_congr_on_mem _ _ _ _
      (fun c hc d hd => productLE_price_eq_tot_of_priced c d
        (List.of_mem_filter hc) (List.of_mem_filter hd))
  termination_by l => l.length

/-- Stability for a comparator of the form `f b - f a` (the `"reviews"` and
best-match branches of the source comparator). -/
theorem pair_sublist_sort_of_sub_comparator (sortBy : String) (f : Product → ℚ)
    (hf : ∀ a b, jsCompare sortBy a b = f b - f a) (a b : Product)
    (l : List Product) (heq : f a = f b) (hsub : [a, b].Sublist l) :
    [a, b].Sublist (l.mergeSort (productLE sortBy)) := by
  apply List.pair_sublist_mergeSort
  · intro u v w huv hvw
    simp only [productLE, hf, decide_eq_true_eq, sub_nonpos] at huv hvw ⊢
    exact le_trans hvw huv
  · intro u v
    simp only [productLE, hf]
    rcases le_total (f v) (f u) with h | h
    · simp [sub_nonpos.mpr h]
    · have : productLE sortBy v u = true := by
        simp [productLE, hf, sub_nonpos.mpr h]
      simp [productLE, hf] at this ⊢
      right
      exact this
  · simp [productLE, hf, heq]
  · exact hsub

/-- Equal sort keys, per key: equal scores for best-match, equal review
counts for `"reviews"`, and equal *known* prices for `"price"`. -/
def sortKeysEqual (sortBy : String) (a b : Product) : Prop :=
  if sortBy = "price" then ∃ q, a.price = some q ∧ b.price = some q
  else if sortBy = "reviews" then a.reviews = b.reviews
  else a.score = b.score

/-- C6 (amended). For every `sortBy` key, two products with equal sort keys
preserve their original relative order through the sort — where under
`"price"` equal keys means equal known prices.  (Two products that both lack
a price are excluded: the comparator reports each greater than the other, and
`absent_price_pair_reordered` shows such a pair being swapped.) -/
theorem sort_stable_on_equal_keys (sortBy : String) (a b : Product)
    (l : List Product) (hkey : sortKeysEqual sortBy a b)
    (hsub : [a, b].Sublist l) :
    [a, b].Sublist (sortProducts sortBy l) := by
  unfold sortProducts
  by_cases hp : sortBy = "price"
  · subst hp
    rw [sortKeysEqual, if_pos rfl] at hkey
    obtain ⟨q, ha, hb⟩ := hkey
    have hab : lePriceTot a b = true := by simp [lePriceTot, ha, hb]
    have h1 : [a, b].Sublist (l.mergeSort lePriceTot) :=
      List.pair_sublist_mergeSort lePriceTot_trans lePriceTot_total hab hsub
    have h3 := h1.filter pricedB
    have h2 : [a, b].filter pricedB = [a, b] := by
      simp [List.filter, pricedB, ha, hb]
    rw [h2, ← filter_mergeSort_agree l] at h3
    exact h3.trans (List.filter_sublist _)
  · by_cases hr : sortBy = "reviews"
    · subst hr
      rw [sortKeysEqual, if_neg (by decide), if_pos rfl] at hkey
      exact pair_sublist_sort_of_sub_comparator "reviews" (fun x => x.reviews)
        (fun u v => by rw [jsCompare, if_neg (by decide), if_pos rfl]) a b l hkey hsub
    · rw [sortKeysEqual, if_neg hp, if_neg hr] at hkey
      exact pair_sublist_sort_of_sub_comparator sortBy (fun x => x.score)
        (fun u v => by rw [jsCompare, if_neg hp, if_neg hr]) a b l hkey hsub

/-- Witness for C6 (amended): two score-0 products in a two-element list under
the best-match key. -/
theorem sort_stable_on_equal_keys_witness :
    (sortKeysEqual "score" unpricedA unpricedB ∧
     [unpricedA, unpricedB].Sublist [unpricedA, unpricedB]) ∧
    [unpricedA, unpricedB].Sublist (sortProducts "score" [unpricedA, unpricedB]) :=
  ⟨⟨by rw [sortKeysEqual, if_neg (by decide), if_neg (by decide)]; rfl,
    List.Sublist.refl _⟩,
   sort_stable_on_equal_keys "score" unpricedA unpricedB [unpricedA, unpricedB]
     (by rw [sortKeysEqual, if_neg (by decide), if_neg (by decide)]; rfl)
     (List.Sublist.refl _)⟩

/-! ## Distinctness of the synthesized fallback asin names (C4)

`"ASINFALLBACK" + idx` uses `toString : ℕ → String`; its injectivity is
proved by a round trip through `digitsVal`. -/

theorem digitChar_toNat_sub (k : ℕ) (hk : k < 10) :
    (Nat.digitChar k).toNat - 48 = k := by
  interval_cases k <;> rfl

theorem toDigitsCore_spec : ∀ (fuel n : ℕ) (acc : List Char), n < fuel →
    ∃ ds, Nat.toDigitsCore 10 fuel n acc = ds ++ acc ∧ ds ≠ [] ∧ digitsVal ds = n := by
  intro fuel
  induction fuel with
  | zero => intro n acc h; omega
  | succ f ih =>
    intro n acc h
    rw [Nat.toDigitsCore]
    by_cases h0 : n / 10 = 0
    · rw [if_pos h0]
      refine ⟨[Nat.digitChar (n % 10)], rfl, by simp, ?_⟩
      have hn : n % 10 = n := by omega
      simp [digitsVal, hn, digitChar_toNat_sub n (by omega)]
    · rw [if_neg h0]
      have hlt : n / 10 < f := by omega
      obtain ⟨ds, heq, hne, hval⟩ := ih (n / 10) (Nat.digitChar (n % 10) :: acc) hlt
      refine ⟨ds ++ [Nat.digitChar (n % 10)], by rw [heq]; simp, by simp, ?_⟩
      rw [digitsVal, List.foldl_append]
      have hd := digitChar_toNat_sub (n % 10) (by omega)
      rw [digitsVal] at hval
      simp only [List.foldl_cons, List.foldl_nil, hval, hd]
      omega

theorem natToString_inj (m n : ℕ) (h : toString m = toString n) : m = n := by
  obtain ⟨ds1, he1, -, hv1⟩ := toDigitsCore_spec (m + 1) m [] (Nat.lt_succ_self m)
  obtain ⟨ds2, he2, -, hv2⟩ := toDigitsCore_spec (n + 1) n [] (Nat.lt_succ_self n)
  have hstr : (Nat.toDigits 10 m).asString = (Nat.toDigits 10 n).asString := h
  have hds : Nat.toDigits 10 m = Nat.toDigits 10 n := by
    have h2 := congrArg String.data hstr
    simpa [List.asString] using h2
  rw [Nat.toDigits, Nat.toDigits, he1, he2] at hds
  simp only [List.append_nil] at hds
  rw [← hv1, ← hv2, hds]

theorem fallback_asin_inj (i j : ℕ)
    (h : ("ASINFALLBACK" ++ toString i : String) = "ASINFALLBACK" ++ toString j) :
    i = j := by
  apply natToString_inj
  have h2 := congrArg String.data h
  rw [String.data_append, String.data_append] at h2
  exact String.ext (List.append_inj_right h2 rfl)

/-- C4 counterexample: the batch
`[{score: -1, asin: "A"}, {asin: "A", reviews: -2}]` produces a Product with
negative `score`, a Product with negative `reviews` (both survive `|| 0`
because a negative number is truthy), and two equal `asin` values in one
batch — contradicting all three data-model constraints of the claim. -/
theorem negative_fields_and_duplicate_asins :
    ((normalizeResponse (fun _ => 0)
        (.arr [.obj [("score", .num (-1)), ("asin", .str "A")],
               .obj [("asin", .str "A"), ("reviews", .num (-2))]])).map
      (fun x => x.score) = [-1, 0]) ∧
    ((normalizeResponse (fun _ => 0)
        (.arr [.obj [("score", .num (-1)), ("asin", .str "A")],
               .obj [("asin", .str "A"), ("reviews", .num (-2))]])).map
      (fun x => x.reviews) = [0, -2]) ∧
    ((normalizeResponse (fun _ => 0)
        (.arr [.obj [("score", .num (-1)), ("asin", .str "A")],
               .obj [("asin", .str "A"), ("reviews", .num (-2))]])).map
      (fun x => x.asin) = [.str "A", .str "A"]) :=
  ⟨rfl, rfl, rfl⟩

/-- C4 (amended). Whenever the source elements' explicit `score`/`similarity`
values coerce only to non-negative numbers, their explicit
`reviews`/`review_count` values coerce only to non-negative integers, and the
explicitly present `asin`/`ASIN` values are pairwise distinct and never equal
to a fallback string `"ASINFALLBACK<i>"`, every Product of one normalizer
pass has a non-negative `score`, a non-negative integer `reviews` (the random
placeholder is a natural number by construction), and the batch's `asin`
values are pairwise distinct (absent asins get the pairwise-distinct
synthesized fallbacks). -/
theorem normalized_batch_invariants (placeholder : ℕ → ℕ) (l : List Json)
    (hscore : ∀ p ∈ l, ∀ j, (p.get? "score" <|> p.get? "similarity") = some j →
      ∀ q : ℚ, jsToNumber j = some q → 0 ≤ q)
    (hrev : ∀ p ∈ l, ∀ j, (p.get? "reviews" <|> p.get? "review_count") = some j →
      ∀ q : ℚ, jsToNumber j = some q → 0 ≤ q ∧ q.den = 1)
    (hfb : ∀ p ∈ l, ∀ j, (p.get? "asin" <|> p.get? "ASIN") = some j →
      ∀ i : ℕ, j ≠ .str ("ASINFALLBACK" ++ toString i))
    (hnd : l.Pairwise (fun p p' => ∀ j j',
      (p.get? "asin" <|> p.get? "ASIN") = some j →
      (p'.get? "asin" <|> p'.get? "ASIN") = some j' → j ≠ j')) :
    (∀ x ∈ normalizeResponse placeholder (.arr l),
      0 ≤ x.score ∧ 0 ≤ x.reviews ∧ x.reviews.den = 1) ∧
    ((normalizeResponse placeholder (.arr l)).map (fun x => x.asin)).Pairwise
      (· ≠ ·) := by
  constructor
  · intro x hx
    simp only [normalizeResponse, List.mapIdx_eq_enum_map] at hx
    obtain ⟨⟨i, p⟩, hip, rfl⟩ := List.mem_map.mp hx
    have hpl : p ∈ l := List.snd_mem_of_mem_enumFrom hip
    refine ⟨?_, ?_⟩
    · show 0 ≤ (normalizeElem placeholder i p).score
      simp only [normalizeElem]
      cases hc : (p.get? "score" <|> p.get? "similarity") with
      | none => simp [jsNumOrZero, jsToNumber]
      | some j =>
        simp only [Option.getD]
        cases hq : jsToNumber j with
        | none => simp [jsNumOrZero]
        | some q => simpa [jsNumOrZero] using hscore p hpl j hc q hq
    · show 0 ≤ (normalizeElem placeholder i p).reviews ∧
        (normalizeElem placeholder i p).reviews.den = 1
      simp only [normalizeElem]
      cases hc : (p.get? "reviews" <|> p.get? "review_count") with
      | none =>
        simp only [Option.getD, jsToNumber, jsNumOrZero]
        exact ⟨Nat.cast_nonneg _, Rat.den_natCast _⟩
      | some j =>
        simp only [Option.getD]
        cases hq : jsToNumber j with
        | none => simp [jsNumOrZero]
        | some q => simpa [jsNumOrZero] using hrev p hpl j hc q hq
  · simp only [normalizeResponse, List.mapIdx_eq_enum_map]
    rw [List.pairwise_map, List.pairwise_map]
    have hfst : l.enum.Pairwise (fun a b => a.1 ≠ b.1) := by
      have hnodup : (l.enum.map Prod.fst).Nodup := by
        rw [List.enum_map_fst]; exact List.nodup_range _
      exact List.pairwise_map.mp hnodup
    have hsnd : l.enum.Pairwise (fun a b => ∀ j j',
        (a.2.get? "asin" <|> a.2.get? "ASIN") = some j →
        (b.2.get? "asin" <|> b.2.get? "ASIN") = some j' → j ≠ j') := by
      have h2 : (l.enum.map Prod.snd).Pairwise (fun p p' => ∀ j j',
          (p.get? "asin" <|> p.get? "ASIN") = some j →
          (p'.get? "asin" <|> p'.get? "ASIN") = some j' → j ≠ j') := by
        rw [List.enum_map_snd]; exact hnd
      exact List.pairwise_map.mp h2
    refine List.Pairwise.imp_of_mem ?_ (hfst.and hsnd)
    rintro ⟨i, p⟩ ⟨i', p'⟩ ha hb ⟨hij, hjj⟩
    have hpl : p ∈ l := List.snd_mem_of_mem_enumFrom ha
    have hpl' : p' ∈ l := List.snd_mem_of_mem_enumFrom hb
    show (normalizeElem placeholder i p).asin ≠ (normalizeElem placeholder i' p').asin
    simp only [normalizeElem]
    cases hc : (p.get? "asin" <|> p.get? "ASIN") with
    | none =>
      cases hc' : (p'.get? "asin" <|> p'.get? "ASIN") with
      | none =>
        simp only [Option.getD]
        intro heq
        exact hij (fallback_asin_inj i i' (by injection heq))
      | some j' =>
        simp only [Option.getD]
        intro heq
        exact hfb p' hpl' j' hc' i heq.symm
    | some j =>
      cases hc' : (p'.get? "asin" <|> p'.get? "ASIN") with
      | none =>
        simp only [Option.getD]
        intro heq
        exact hfb p hpl j hc i' heq
      | some j' =>
        simp only [Option.getD]
        exact hjj j j' hc hc'

/-- Witness for C4 (amended): a two-element batch whose elements carry none of
the fields, so both Products are fully defaulted and get the two distinct
synthesized fallback asins. -/
theorem normalized_batch_invariants_witness :
    (∀ x ∈ normalizeResponse (fun _ => 5) (.arr [.null, .obj []]),
      0 ≤ x.score ∧ 0 ≤ x.reviews ∧ x.reviews.den = 1) ∧
    ((normalizeResponse (fun _ => 5) (.arr [.null, .obj []])).map
      (fun x => x.asin)).Pairwise (· ≠ ·) :=
  normalized_batch_invariants (fun _ => 5) [.null, .obj []]
    (by intro p hp j hj; simp at hp
        rcases hp with rfl | rfl <;> simp [Json.get?] at hj)
    (by intro p hp j hj; simp at hp
        rcases hp with rfl | rfl <;> simp [Json.get?] at hj)
    (by intro p hp j hj; simp at hp
        rcases hp with rfl | rfl <;> simp [Json.get?] at hj)
    (by refine List.pairwise_cons.mpr ⟨?_, List.pairwise_singleton _ _⟩
        intro p' hp'; simp at hp'; subst hp'
        intro j j' hj hj'; simp [Json.get?] at hj)
